import Mathlib

/-
Verification of the streaming buffer manager, channel router, frame decoder
and connection hook of the Brain-To-Brain dashboard (LiveView component and
useWebSocket hook).

JavaScript numbers are modelled as rationals; `NaN` and the infinities get
their own constructors (`JSNum`).  `Math.round` rounds half toward plus
infinity, which on rationals is `Int.floor (q + 1/2)`.  Times are integer
epoch milliseconds.  `Date.now()` is passed in as an explicit `now`
parameter wherever the source consults the wall clock.
-/

set_option maxHeartbeats 1000000
set_option maxRecDepth 4000

namespace BrainDash

/-- A JavaScript number: a finite rational, NaN, or an infinity. -/
inductive JSNum where
  | num (q : ℚ)
  | nan
  | inf
  | negInf
deriving DecidableEq

/-- `Number.isFinite`: true exactly on finite numbers. -/
def JSNum.isFinite : JSNum → Bool
  | JSNum.num _ => true
  | _ => false

/-- The point-construction coercion `Number.isFinite(v) ? v : 0`. -/
def coerceFinite (v : JSNum) : JSNum :=
  if v.isFinite then v else JSNum.num 0

/-- `Math.round` on a finite value: round half toward plus infinity. -/
def jsRound (q : ℚ) : Int :=
  Int.floor (q + 1 / 2)

/-- A sample point `{ time, value }` as stored in the channel buffers. -/
structure Point where
  time : Int
  value : JSNum
deriving DecidableEq

/-- `MAX_POINTS_PER_MESSAGE` from LiveView. -/
def MAX_POINTS_PER_MESSAGE : Nat := 120

/-- `MAX_POINTS_PER_CHANNEL` from LiveView. -/
def MAX_POINTS_PER_CHANNEL : Nat := 50000

/-- `merged.length ? merged[merged.length - 1].time : Date.now()`. -/
def lastTime (now : Int) (merged : List Point) : Int :=
  match merged.getLast? with
  | some p => p.time
  | none => now

/-- `pushChannelPoints` state update (LiveView lines 38-50): merge the
batch after the existing buffer, trim by the sliding time window anchored
at the last merged point, then cap at `MAX_POINTS_PER_CHANNEL` keeping the
most recent points (`slice(-MAX_POINTS_PER_CHANNEL)`). -/
def pushChannelPoints (timeWindowMs now : Int) (current pts : List Point) : List Point :=
  let merged := current ++ pts
  let cutoff := lastTime now merged - timeWindowMs
  let trimmed := merged.filter fun p => decide (cutoff ≤ p.time)
  if MAX_POINTS_PER_CHANNEL < trimmed.length then
    trimmed.drop (trimmed.length - MAX_POINTS_PER_CHANNEL)
  else
    trimmed

/-- `pushSingleByTimeWindow` state update (LiveView lines 55-67): identical
merge-trim-cap logic, except an empty batch returns the buffer unchanged. -/
def pushSingleByTimeWindow (timeWindowMs now : Int) (prev pts : List Point) : List Point :=
  if pts.isEmpty then prev
  else
    let merged := prev ++ pts
    let cutoff := lastTime now merged - timeWindowMs
    let sliced := merged.filter fun p => decide (cutoff ≤ p.time)
    if MAX_POINTS_PER_CHANNEL < sliced.length then
      sliced.drop (sliced.length - MAX_POINTS_PER_CHANNEL)
    else
      sliced

/-- One entry of `payload.window`: a sample array, or some non-array value
(`Array.isArray(channels[ch])` fails). -/
inductive JSChannel where
  | arr (samples : List JSNum)
  | notArray
deriving DecidableEq

/-- The `window` field: an array of channels, or a non-array value. -/
inductive JSWindow where
  | arr (channels : List JSChannel)
  | notArray
deriving DecidableEq

/-- A parsed wire payload.  `none` fields model missing or falsy/NaN
values (for `fs` and `timestamp`, which the source reads with
`Number(x) || default`). -/
structure RawPayload where
  source : Option String
  fs : Option ℚ
  timestamp : Option Int
  window : Option JSWindow

/-- The inbound message as seen by the LiveView effect.
`noText`: `wsData` carries no string payload; `parseError`: `JSON.parse`
throws; `falsy`: parsing succeeded but the value is falsy. -/
inductive WsInput where
  | noText
  | parseError
  | falsy
  | payload (p : RawPayload)

/-- The decoded frame used by the router. -/
structure Frame where
  source : String
  fs : ℚ
  endTs : Int
  channels : List JSChannel

/-- `Array.isArray(ch) ? ch : []`. -/
def chanSamples : JSChannel → List JSNum
  | JSChannel.arr s => s
  | JSChannel.notArray => []

/-- The parse-and-validate prefix of the LiveView effect (lines 84-109):
drop unparseable or falsy payloads, payloads whose `window` is not an
array, empty windows, and windows whose first channel is not a non-empty
array.  `fs` defaults to 512 and `timestamp` to `Date.now()` when missing
or falsy. -/
def decodeFrame (now : Int) (input : WsInput) : Option Frame :=
  match input with
  | WsInput.noText => none
  | WsInput.parseError => none
  | WsInput.falsy => none
  | WsInput.payload p =>
    match p.window with
    | none => none
    | some JSWindow.notArray => none
    | some (JSWindow.arr channels) =>
      let source := (p.source.getD "").toUpper
      let fs : ℚ := match p.fs with
        | some q => if q = 0 then 512 else q
        | none => 512
      let endTs : Int := match p.timestamp with
        | some t => if t = 0 then now else t
        | none => now
      if channels.length = 0 then none
      else
        let samples := chanSamples (channels.headD JSChannel.notArray)
        if samples.length = 0 then none
        else some { source := source, fs := fs, endTs := endTs, channels := channels }

/-- The decimating `for (let i = 0, idx = 0; i < n; i += stride, idx++)`
loop pattern: visit indices `0, stride, 2*stride, ...` below `n`, applying
`f idx i`.  The fuel argument (`n` at the top call) bounds the iteration
count; with `stride ≥ 1` the loop makes at most `n` steps, so the fuel
never runs out. -/
def strideMap (f : Nat → Nat → α) (stride n : Nat) : List α :=
  go 0 0 n
where
  go (i idx fuel : Nat) : List α :=
    match fuel with
    | 0 => []
    | fuel + 1 => if i < n then f idx i :: go (i + stride) (idx + 1) fuel else []

/-- Ceiling division on naturals. -/
def ceilDiv (a b : Nat) : Nat := (a + b - 1) / b

/-- The per-sample timestamp list (LiveView lines 121-125):
`timestamps.push(endTs + Math.round((i - (n - 1)) * (1000 / fs)))` for
`i = 0, stride, 2*stride, ... < n`. -/
def buildTimestamps (stride n : Nat) (fs : ℚ) (endTs : Int) : List Int :=
  strideMap (fun _ i => endTs + jsRound (((i : ℚ) - ((n : ℚ) - 1)) * (1000 / fs))) stride n

/-- The fallback timestamp `endTs - Math.round((n - 1 - i) * (1000 / fs))`
used when `timestamps[idx]` is undefined. -/
def fallbackTs (n : Nat) (fs : ℚ) (endTs : Int) (i : Nat) : Int :=
  endTs - jsRound ((((n : ℚ) - 1) - (i : ℚ)) * (1000 / fs))

/-- Point construction for the multi-channel and single-channel paths
(LiveView lines 136-141 and 180-186): stride over the channel's own
length, look the timestamp up by running index with the fallback, coerce
non-finite values to 0. -/
def buildPts (stride n : Nat) (fs : ℚ) (endTs : Int) (timestamps : List Int)
    (chSamples : List JSNum) : List Point :=
  strideMap
    (fun idx i =>
      { time := timestamps.getD idx (fallbackTs n fs endTs i),
        value := coerceFinite (chSamples.getD i JSNum.nan) })
    stride chSamples.length

/-- Point construction for one channel of the dual-EMG branch (LiveView
lines 157-169): the loop runs over the reference length `n`, and a point
is pushed only when `i < chSamples.length`. -/
def dualPts (stride n : Nat) (fs : ℚ) (endTs : Int) (timestamps : List Int)
    (chSamples : List JSNum) : List Point :=
  (strideMap
    (fun idx i =>
      if i < chSamples.length then
        some { time := timestamps.getD idx (fallbackTs n fs endTs i),
               value := coerceFinite (chSamples.getD i JSNum.nan) }
      else none)
    stride n).filterMap id

/-- The logical channel buffers of LiveView: `eegByChannel[ch]`,
`eogData`, `emgData` (the spec's "primary"/"emg" buffer) and `emgCh1Data`
(the spec's "secondary" buffer). -/
inductive BufKey where
  | eegByChannel (ch : Nat)
  | eogData
  | emgData
  | emgCh1Data
deriving DecidableEq

/-- The routing part of the LiveView effect (lines 117-201): compute the
stride from the reference channel, build the shared timestamp list, then
emit `(buffer, points)` batches according to the source/channel-count
rules. -/
def routeFrame (f : Frame) : List (BufKey × List Point) :=
  let channels := f.channels
  let nChannels := channels.length
  let samples := chanSamples (channels.headD JSChannel.notArray)
  let n := samples.length
  let stride := max 1 (n / MAX_POINTS_PER_MESSAGE)
  let timestamps := buildTimestamps stride n f.fs f.endTs
  if f.source = "EEG" ∨ 8 ≤ nChannels then
    (List.range nChannels).filterMap fun ch =>
      let chSamples := chanSamples (channels.getD ch JSChannel.notArray)
      if chSamples.isEmpty then none
      else some (BufKey.eegByChannel ch, buildPts stride n f.fs f.endTs timestamps chSamples)
  else if f.source = "EMG" ∧ nChannels = 2 then
    let samples0 := chanSamples (channels.getD 0 JSChannel.notArray)
    let samples1 := chanSamples (channels.getD 1 JSChannel.notArray)
    [(BufKey.emgData, dualPts stride n f.fs f.endTs timestamps samples0),
     (BufKey.emgCh1Data, dualPts stride n f.fs f.endTs timestamps samples1)]
  else
    let samples0 := chanSamples (channels.headD JSChannel.notArray)
    let pts := buildPts stride n f.fs f.endTs timestamps samples0
    if f.source = "EOG" then [(BufKey.eogData, pts)]
    else if f.source = "EMG" then [(BufKey.emgData, pts)]
    else if nChannels = 2 then [(BufKey.eogData, pts)]
    else [(BufKey.emgData, pts)]

/-- Apply one emitted batch to the buffer store: EEG batches go through
`pushChannelPoints`, the named single buffers through
`pushSingleByTimeWindow`, exactly as the corresponding setters are invoked
in the source. -/
def pushBatch (timeWindowMs now : Int) (store : BufKey → List Point)
    (b : BufKey × List Point) : BufKey → List Point :=
  fun k =>
    if k = b.1 then
      match b.1 with
      | BufKey.eegByChannel _ => pushChannelPoints timeWindowMs now (store k) b.2
      | _ => pushSingleByTimeWindow timeWindowMs now (store k) b.2
    else store k

/-- One full pass of the LiveView effect over an inbound message: decode,
route, and push every emitted batch.  Returns the updated store together
with the emitted batches (empty on decode failure). -/
def processWsData (timeWindowMs now : Int) (store : BufKey → List Point)
    (input : WsInput) : (BufKey → List Point) × List (BufKey × List Point) :=
  match decodeFrame now input with
  | none => (store, [])
  | some f =>
    let batches := routeFrame f
    (batches.foldl (pushBatch timeWindowMs now) store, batches)

/-- `MAX_RECONNECT_ATTEMPTS` from the useWebSocket hook. -/
def MAX_RECONNECT_ATTEMPTS : Nat := 5

/-- Connection status of the useWebSocket hook. -/
inductive WSStatus where
  | disconnected
  | connecting
  | connected
  | error
deriving DecidableEq

/-- The observable state of the useWebSocket hook: `status`, the
`reconnectAttemptsRef` counter, whether a reconnect timer is pending
(`reconnectTimerRef`), and whether the ping loop is running
(`pingTimerRef`). -/
structure WSState where
  status : WSStatus
  reconnectAttempts : Nat
  reconnectTimerPending : Bool
  pingLoopActive : Bool
deriving DecidableEq

/-- State at mount: disconnected, zero attempts, no timers. -/
def initWSState : WSState :=
  { status := WSStatus.disconnected, reconnectAttempts := 0,
    reconnectTimerPending := false, pingLoopActive := false }

/-- The `onopen` handler (useWebSocket lines 63-70): status `connected`,
reset the reconnect counter to 0, start the ping loop. -/
def handleOpen (s : WSState) : WSState :=
  { s with status := WSStatus.connected, reconnectAttempts := 0, pingLoopActive := true }

/-- The `onclose` handler (useWebSocket lines 113-132): status
`disconnected`, stop the ping loop; then, if auto-connect is on and fewer
than `MAX_RECONNECT_ATTEMPTS` attempts were made, increment the counter
and schedule a reconnect; else if the attempts are exhausted, status
`error`. -/
def handleClose (autoConnect : Bool) (s : WSState) : WSState :=
  let s1 : WSState := { s with status := WSStatus.disconnected, pingLoopActive := false }
  if autoConnect = true ∧ s1.reconnectAttempts < MAX_RECONNECT_ATTEMPTS then
    { s1 with reconnectAttempts := s1.reconnectAttempts + 1, reconnectTimerPending := true }
  else if MAX_RECONNECT_ATTEMPTS ≤ s1.reconnectAttempts then
    { s1 with status := WSStatus.error }
  else s1

/-- `connect()` (useWebSocket lines 42-58, up to opening the transport):
a no-op while the transport is already open or opening, otherwise status
`connecting`. -/
def connectAction (s : WSState) : WSState :=
  if s.status = WSStatus.connected ∨ s.status = WSStatus.connecting then s
  else { s with status := WSStatus.connecting }

/-- External events driving the hook: transport open, transport close,
and the reconnect timer firing (which consumes the timer and calls
`connect()`). -/
inductive WSEvent where
  | opened
  | closed
  | timerFired
deriving DecidableEq

/-- One step of the connection state machine. -/
def wsStep (autoConnect : Bool) (s : WSState) : WSEvent → WSState
  | WSEvent.opened => handleOpen s
  | WSEvent.closed => handleClose autoConnect s
  | WSEvent.timerFired =>
    if s.reconnectTimerPending then
      connectAction { s with reconnectTimerPending := false }
    else s

/-- Run the state machine over a list of events. -/
def wsRun (autoConnect : Bool) (s : WSState) (events : List WSEvent) : WSState :=
  events.foldl (wsStep autoConnect) s

/-- A close followed by the scheduled reconnect firing. -/
def closeThenRetry : List WSEvent := [WSEvent.closed, WSEvent.timerFired]

/-- Five consecutive transport closes, each followed by the scheduled
reconnect attempt (the transport of the next close), with no successful
open in between. -/
def fiveCloseTrace : List WSEvent :=
  closeThenRetry ++ closeThenRetry ++ closeThenRetry ++ closeThenRetry ++ [WSEvent.closed]

/-- Six consecutive transport closes with the scheduled reconnects firing
in between and no successful open. -/
def sixCloseTrace : List WSEvent :=
  closeThenRetry ++ closeThenRetry ++ closeThenRetry ++ closeThenRetry ++ closeThenRetry
    ++ [WSEvent.closed]

/-- A test point with value 0. -/
def pt (t : Int) : Point := { time := t, value := JSNum.num 0 }

/-- A buffer whose older point violates a 10 ms window anchored at its
last point; reachable by pushing both points under a 30 ms window and then
narrowing the window control to 10 ms. -/
def staleBuffer : List Point := [pt 0, pt 20]

/-- A buffer filled to the hard cap with points at time 5. -/
def fullBuffer : List Point := List.replicate 50000 (pt 5)

/-- An EMG frame with two channels. -/
def emgDualFrame : Frame :=
  { source := "EMG", fs := 500, endTs := 1000,
    channels := [JSChannel.arr [JSNum.num 1], JSChannel.arr [JSNum.num 2]] }

/-- An EMG frame with a single channel. -/
def emgMonoFrame : Frame :=
  { source := "EMG", fs := 500, endTs := 1000,
    channels := [JSChannel.arr [JSNum.num 1]] }

/-- An EEG frame with only two declared channels. -/
def eegTwoChFrame : Frame :=
  { source := "EEG", fs := 500, endTs := 1000,
    channels := [JSChannel.arr [JSNum.num 1], JSChannel.arr [JSNum.num 2]] }

/-- An EEG frame whose second channel (121 samples) is longer than the
reference channel (120 samples). -/
def overflowFrame : Frame :=
  { source := "EEG", fs := 500, endTs := 1000,
    channels := [JSChannel.arr (List.replicate 120 (JSNum.num 0)),
                 JSChannel.arr (List.replicate 121 (JSNum.num 0))] }

/-- An EEG frame at sampling rate 2000 Hz whose second channel is one
sample longer than the reference channel: the extra kept index `i = 1`
exceeds `n - 1 = 0` and takes the fallback timestamp. -/
def fallbackEdgeFrame : Frame :=
  { source := "EEG", fs := 2000, endTs := 1000000,
    channels := [JSChannel.arr [JSNum.num 0], JSChannel.arr [JSNum.num 0, JSNum.num 0]] }

/-- Reference data for the stride/timestamp claim: three samples. -/
def samples3 : List JSNum := [JSNum.num 1, JSNum.num 2, JSNum.num 3]

/-- The reference channel samples of a frame (channel 0). -/
def refSamples (f : Frame) : List JSNum :=
  chanSamples (f.channels.headD JSChannel.notArray)

/-- The decimation stride of a frame, computed from the reference
channel's length only. -/
def refStride (f : Frame) : Nat :=
  max 1 ((refSamples f).length / MAX_POINTS_PER_MESSAGE)

/-- The shared timestamp list of a frame. -/
def refTimestamps (f : Frame) : List Int :=
  buildTimestamps (refStride f) (refSamples f).length f.fs f.endTs

/-- An EOG frame whose only sample is NaN. -/
def nanFrame : Frame :=
  { source := "EOG", fs := 500, endTs := 1000, channels := [JSChannel.arr [JSNum.nan]] }

/-- A payload whose `window` is an array but whose first channel is an
empty array: the decoder must drop it. -/
def emptyChannelPayload : RawPayload :=
  { source := none, fs := none, timestamp := none,
    window := some (JSWindow.arr [JSChannel.arr []]) }

/- ------------------------------------------------------------------ -/
/- Helper lemmas.                                                      -/
/- ------------------------------------------------------------------ -/

theorem ceilDiv_zero (b : Nat) : ceilDiv 0 b = 0 := by
  unfold ceilDiv
  rcases Nat.eq_zero_or_pos b with hb | hb
  · subst hb; rfl
  · exact Nat.div_eq_of_lt (by omega)

theorem ceilDiv_step {a b : Nat} (hb : 0 < b) (ha : 0 < a) :
    ceilDiv a b = ceilDiv (a - b) b + 1 := by
  unfold ceilDiv
  rcases Nat.lt_or_ge a b with h | h
  · have h0 : a - b = 0 := by omega
    have h1 : a + b - 1 = (a - 1) + b := by omega
    have h2 : 0 + b - 1 = b - 1 := by omega
    rw [h0, h1, h2, Nat.add_div_right _ hb]
    have e1 : (a - 1) / b = 0 := Nat.div_eq_of_lt (by omega)
    have e2 : (b - 1) / b = 0 := Nat.div_eq_of_lt (by omega)
    rw [e1, e2]
  · have h1 : a + b - 1 = (a - 1) + b := by omega
    have h2 : a - b + b - 1 = a - 1 := by omega
    rw [h1, h2, Nat.add_div_right _ hb]

theorem ceilDiv_one (a : Nat) : ceilDiv a 1 = a := by
  unfold ceilDiv
  simp

theorem strideMap_go_eq {α : Type} (f : Nat → Nat → α) (stride n : Nat) (hs : 0 < stride) :
    ∀ (fuel i idx : Nat), n - i ≤ fuel →
      strideMap.go f stride n i idx fuel
        = (List.range (ceilDiv (n - i) stride)).map fun k => f (idx + k) (i + k * stride) := by
  intro fuel
  induction fuel with
  | zero =>
    intro i idx h
    have h0 : n - i = 0 := by omega
    rw [h0, ceilDiv_zero]
    rfl
  | succ fuel ih =>
    intro i idx h
    by_cases hin : i < n
    · have ha : 0 < n - i := by omega
      have hfuel : n - (i + stride) ≤ fuel := by omega
      have hgo : strideMap.go f stride n i idx (fuel + 1)
          = f idx i :: strideMap.go f stride n (i + stride) (idx + 1) fuel := by
        show (if i < n then f idx i :: strideMap.go f stride n (i + stride) (idx + 1) fuel
              else []) = _
        rw [if_pos hin]
      rw [hgo, ih (i + stride) (idx + 1) hfuel, ceilDiv_step hs ha,
        List.range_succ_eq_map, List.map_cons, List.map_map]
      have h1 : f (idx + 0) (i + 0 * stride) = f idx i := by simp
      have h2 : ((fun k => f (idx + k) (i + k * stride)) ∘ Nat.succ)
          = fun k => f (idx + 1 + k) (i + stride + k * stride) := by
        funext k
        simp only [Function.comp_apply, Nat.succ_eq_add_one]
        congr 1
        · omega
        · ring
      have h3 : n - i - stride = n - (i + stride) := by omega
      rw [h1, h2, h3]
    · have h0 : n - i = 0 := by omega
      have hgo : strideMap.go f stride n i idx (fuel + 1) = [] := by
        show (if i < n then f idx i :: strideMap.go f stride n (i + stride) (idx + 1) fuel
              else []) = _
        rw [if_neg hin]
      rw [hgo, h0, ceilDiv_zero]
      rfl

theorem strideMap_eq {α : Type} (f : Nat → Nat → α) (stride n : Nat) (hs : 0 < stride) :
    strideMap f stride n = (List.range (ceilDiv n stride)).map fun k => f k (k * stride) := by
  have h := strideMap_go_eq f stride n hs n 0 0 (by omega)
  unfold strideMap
  rw [h]
  simp

theorem length_strideMap {α : Type} (f : Nat → Nat → α) (stride n : Nat) (hs : 0 < stride) :
    (strideMap f stride n).length = ceilDiv n stride := by
  rw [strideMap_eq f stride n hs]
  simp

theorem getD_strideMap {α : Type} (f : Nat → Nat → α) (stride n : Nat) (hs : 0 < stride)
    (idx : Nat) (hidx : idx < ceilDiv n stride) (d : α) :
    (strideMap f stride n).getD idx d = f idx (idx * stride) := by
  rw [strideMap_eq f stride n hs, List.getD_eq_getElem?_getD, List.getElem?_map,
    List.getElem?_range hidx]
  rfl

theorem mem_strideMap {α : Type} {f : Nat → Nat → α} {stride n : Nat} (hs : 0 < stride)
    {x : α} (hx : x ∈ strideMap f stride n) : ∃ idx i, x = f idx i := by
  rw [strideMap_eq f stride n hs] at hx
  simp only [List.mem_map] at hx
  obtain ⟨k, _, hk⟩ := hx
  exact ⟨k, k * stride, hk.symm⟩

theorem coerceFinite_isFinite (v : JSNum) : (coerceFinite v).isFinite = true := by
  cases v <;> rfl

theorem capLength_le (l : List Point) :
    (if MAX_POINTS_PER_CHANNEL < l.length
     then l.drop (l.length - MAX_POINTS_PER_CHANNEL) else l).length
      ≤ MAX_POINTS_PER_CHANNEL := by
  split
  · rw [List.length_drop]; omega
  · omega

theorem capSuffix (l : List Point) :
    (if MAX_POINTS_PER_CHANNEL < l.length
     then l.drop (l.length - MAX_POINTS_PER_CHANNEL) else l) <:+ l := by
  split
  · exact List.drop_suffix _ _
  · exact List.suffix_refl l

theorem pushChannelPoints_eq (timeWindowMs now : Int) (current pts : List Point) :
    pushChannelPoints timeWindowMs now current pts
      = (if MAX_POINTS_PER_CHANNEL <
            ((current ++ pts).filter fun p =>
              decide (lastTime now (current ++ pts) - timeWindowMs ≤ p.time)).length
         then ((current ++ pts).filter fun p =>
                decide (lastTime now (current ++ pts) - timeWindowMs ≤ p.time)).drop
                (((current ++ pts).filter fun p =>
                  decide (lastTime now (current ++ pts) - timeWindowMs ≤ p.time)).length
                  - MAX_POINTS_PER_CHANNEL)
         else (current ++ pts).filter fun p =>
                decide (lastTime now (current ++ pts) - timeWindowMs ≤ p.time)) := rfl

theorem pushSingle_nil (timeWindowMs now : Int) (prev : List Point) :
    pushSingleByTimeWindow timeWindowMs now prev [] = prev := rfl

theorem pushSingle_eq_pushChannel (timeWindowMs now : Int) (prev pts : List Point)
    (hne : pts ≠ []) :
    pushSingleByTimeWindow timeWindowMs now prev pts
      = pushChannelPoints timeWindowMs now prev pts := by
  cases pts with
  | nil => exact absurd rfl hne
  | cons a l => rfl

theorem mem_pushChannel_time_bound {timeWindowMs now : Int} {current pts : List Point}
    {p : Point} (hp : p ∈ pushChannelPoints timeWindowMs now current pts) :
    lastTime now (current ++ pts) - timeWindowMs ≤ p.time := by
  rw [pushChannelPoints_eq] at hp
  have hp2 := (capSuffix _).subset hp
  have := (List.mem_filter.mp hp2).2
  exact of_decide_eq_true this

theorem mem_pushChannel_mem_merged {timeWindowMs now : Int} {current pts : List Point}
    {p : Point} (hp : p ∈ pushChannelPoints timeWindowMs now current pts) :
    p ∈ current ++ pts := by
  rw [pushChannelPoints_eq] at hp
  have hp2 := (capSuffix _).subset hp
  exact (List.mem_filter.mp hp2).1

theorem buildPts_value_finite (stride n : Nat) (fs : ℚ) (endTs : Int) (ts : List Int)
    (chSamples : List JSNum) (hs : 0 < stride) :
    ∀ p ∈ buildPts stride n fs endTs ts chSamples, p.value.isFinite = true := by
  intro p hp
  unfold buildPts at hp
  obtain ⟨idx, i, hpe⟩ := mem_strideMap hs hp
  rw [hpe]
  exact coerceFinite_isFinite _

theorem dualPts_value_finite (stride n : Nat) (fs : ℚ) (endTs : Int) (ts : List Int)
    (chSamples : List JSNum) (hs : 0 < stride) :
    ∀ p ∈ dualPts stride n fs endTs ts chSamples, p.value.isFinite = true := by
  intro p hp
  unfold dualPts at hp
  simp only [List.mem_filterMap, id_eq] at hp
  obtain ⟨o, ho, hoe⟩ := hp
  obtain ⟨idx, i, hoeq⟩ := mem_strideMap hs ho
  subst hoeq
  by_cases hi : i < chSamples.length
  · rw [if_pos hi] at hoe
    injection hoe with hpe
    rw [← hpe]
    exact coerceFinite_isFinite _
  · rw [if_neg hi] at hoe
    exact absurd hoe (by simp)

theorem mem_routeFrame_finite {f : Frame} {k : BufKey} {pts : List Point}
    (hmem : (k, pts) ∈ routeFrame f) : ∀ p ∈ pts, p.value.isFinite = true := by
  have hs : 0 < max 1
      ((chanSamples (f.channels.headD JSChannel.notArray)).length / MAX_POINTS_PER_MESSAGE) :=
    Nat.lt_of_lt_of_le Nat.zero_lt_one (Nat.le_max_left _ _)
  simp only [routeFrame] at hmem
  split at hmem
  · simp only [List.mem_filterMap, List.mem_range] at hmem
    obtain ⟨ch, hch, hife⟩ := hmem
    by_cases he : (chanSamples (f.channels.getD ch JSChannel.notArray)).isEmpty
    · rw [if_pos he] at hife
      exact absurd hife (by simp)
    · rw [if_neg he] at hife
      simp only [Option.some.injEq, Prod.mk.injEq] at hife
      obtain ⟨hk, hpts⟩ := hife
      rw [← hpts]
      exact buildPts_value_finite _ _ _ _ _ _ hs
  · split at hmem
    · simp only [List.mem_cons, List.mem_singleton, List.not_mem_nil, or_false,
        Prod.mk.injEq] at hmem
      rcases hmem with ⟨hk, hpts⟩ | ⟨hk, hpts⟩ <;> rw [hpts] <;>
        exact dualPts_value_finite _ _ _ _ _ _ hs
    · split at hmem
      · simp only [List.mem_singleton, Prod.mk.injEq] at hmem
        rw [hmem.2]
        exact buildPts_value_finite _ _ _ _ _ _ hs
      · split at hmem
        · simp only [List.mem_singleton, Prod.mk.injEq] at hmem
          rw [hmem.2]
          exact buildPts_value_finite _ _ _ _ _ _ hs
        · split at hmem <;>
            simp only [List.mem_singleton, Prod.mk.injEq] at hmem <;>
            rw [hmem.2] <;>
            exact buildPts_value_finite _ _ _ _ _ _ hs

/- ------------------------------------------------------------------ -/
/- Claim theorems.                                                     -/
/- ------------------------------------------------------------------ -/

/-- C1: every push through `pushChannelPoints` yields a buffer of length
at most `MAX_POINTS_PER_CHANNEL`.  A non-empty push through
`pushSingleByTimeWindow` runs the identical merge-trim-cap logic (so the
same bound holds), and an empty one returns the buffer unchanged, so the
bound is preserved for every buffer already within the cap.  Whenever the
merged-and-time-filtered sequence exceeds the cap, the push result is
exactly its suffix of the most recent `MAX_POINTS_PER_CHANNEL` points. -/
theorem pushes_respect_channel_cap (timeWindowMs now : Int) (current pts : List Point) :
    (pushChannelPoints timeWindowMs now current pts).length ≤ MAX_POINTS_PER_CHANNEL
    ∧ (pts ≠ [] →
        pushSingleByTimeWindow timeWindowMs now current pts
          = pushChannelPoints timeWindowMs now current pts)
    ∧ (current.length ≤ MAX_POINTS_PER_CHANNEL →
        (pushSingleByTimeWindow timeWindowMs now current pts).length
          ≤ MAX_POINTS_PER_CHANNEL)
    ∧ (MAX_POINTS_PER_CHANNEL <
          ((current ++ pts).filter fun p =>
            decide (lastTime now (current ++ pts) - timeWindowMs ≤ p.time)).length →
        pushChannelPoints timeWindowMs now current pts
            = ((current ++ pts).filter fun p =>
                decide (lastTime now (current ++ pts) - timeWindowMs ≤ p.time)).drop
                (((current ++ pts).filter fun p =>
                  decide (lastTime now (current ++ pts) - timeWindowMs ≤ p.time)).length
                  - MAX_POINTS_PER_CHANNEL)
          ∧ (pushChannelPoints timeWindowMs now current pts).length
              = MAX_POINTS_PER_CHANNEL
          ∧ pushChannelPoints timeWindowMs now current pts <:+
              ((current ++ pts).filter fun p =>
                decide (lastTime now (current ++ pts) - timeWindowMs ≤ p.time))) := by
  have hA : (pushChannelPoints timeWindowMs now current pts).length
      ≤ MAX_POINTS_PER_CHANNEL := by
    rw [pushChannelPoints_eq]
    exact capLength_le _
  refine ⟨hA, fun hne => pushSingle_eq_pushChannel _ _ _ _ hne, fun hlen => ?_, fun hcap => ?_⟩
  · cases pts with
    | nil => rw [pushSingle_nil]; exact hlen
    | cons a l =>
      rw [pushSingle_eq_pushChannel _ _ _ _ (by simp)]
      exact hA
  · rw [pushChannelPoints_eq, if_pos hcap]
    exact ⟨rfl, by rw [List.length_drop]; omega, List.drop_suffix _ _⟩

/-- Witness for C1 at a buffer filled to the hard cap: the merged and
filtered sequence has 50001 points, so the push keeps exactly 50000. -/
theorem pushes_respect_channel_cap_witness :
    (pushChannelPoints 10 0 fullBuffer [pt 5]).length = 50000
    ∧ pushSingleByTimeWindow 10 0 fullBuffer [pt 5]
        = pushChannelPoints 10 0 fullBuffer [pt 5]
    ∧ (pushSingleByTimeWindow 10 0 fullBuffer [pt 5]).length ≤ 50000 := by
  have h := pushes_respect_channel_cap 10 0 fullBuffer [pt 5]
  have hlast : lastTime 0 (fullBuffer ++ [pt 5]) = 5 := by
    unfold lastTime
    rw [List.getLast?_concat]
    rfl
  have hfil : (fullBuffer ++ [pt 5]).filter (fun p =>
      decide (lastTime 0 (fullBuffer ++ [pt 5]) - 10 ≤ p.time)) = fullBuffer ++ [pt 5] := by
    rw [List.filter_eq_self]
    intro a ha
    rw [hlast]
    have haeq : a = pt 5 := by
      rcases List.mem_append.mp ha with hm | hm
      · simp only [fullBuffer] at hm
        exact List.eq_of_mem_replicate hm
      · simpa using hm
    subst haeq
    decide
  have hlen : (fullBuffer ++ [pt 5]).length = 50001 := by
    rw [List.length_append, fullBuffer, List.length_replicate]
    rfl
  have hcap : MAX_POINTS_PER_CHANNEL <
      ((fullBuffer ++ [pt 5]).filter fun p =>
        decide (lastTime 0 (fullBuffer ++ [pt 5]) - 10 ≤ p.time)).length := by
    rw [hfil, hlen]
    decide
  have hne : ([pt 5] : List Point) ≠ [] := by simp
  have hfull : fullBuffer.length ≤ MAX_POINTS_PER_CHANNEL := by
    rw [fullBuffer, List.length_replicate]
    decide
  exact ⟨(h.2.2.2 hcap).2.1, h.2.1 hne, h.2.2.1 hfull⟩

/-- C2 (amended): after any push through `pushChannelPoints`, and after
any push of a non-empty batch through `pushSingleByTimeWindow`, every
retained point lies within the time window anchored at the last point of
the merged sequence; wall-clock `now` plays no role.  The original claim
also covered empty pushes through `pushSingleByTimeWindow`, which skip
trimming entirely — see the counterexample. -/
theorem window_anchored_to_last_point (timeWindowMs now : Int)
    (current pts : List Point) (q : Point)
    (hq : (current ++ pts).getLast? = some q) :
    (∀ p ∈ pushChannelPoints timeWindowMs now current pts,
        q.time - timeWindowMs ≤ p.time)
    ∧ (pts ≠ [] → ∀ p ∈ pushSingleByTimeWindow timeWindowMs now current pts,
        q.time - timeWindowMs ≤ p.time) := by
  have hlast : lastTime now (current ++ pts) = q.time := by
    unfold lastTime
    rw [hq]
  have hmain : ∀ p ∈ pushChannelPoints timeWindowMs now current pts,
      q.time - timeWindowMs ≤ p.time := by
    intro p hp
    have hb := mem_pushChannel_time_bound hp
    rwa [hlast] at hb
  refine ⟨hmain, fun hne p hp => ?_⟩
  rw [pushSingle_eq_pushChannel _ _ _ _ hne] at hp
  exact hmain p hp

/-- Witness for C2 (amended): pushing points at times 0 and 20 under a
30 ms window retains the point at time 0, which satisfies the bound. -/
theorem window_anchored_to_last_point_witness : (20 : Int) - 30 ≤ (0 : Int) := by
  have h := window_anchored_to_last_point 30 0 [] [pt 0, pt 20] (pt 20) (by decide)
  exact h.1 (pt 0) (by decide)

/-- C2 counterexample: pushing an empty batch through
`pushSingleByTimeWindow` returns a stale buffer untouched.  With the
window control narrowed to 10 ms, the buffer `[pt 0, pt 20]` (built under
a 30 ms window) keeps its point at time 0 even though the claim demands
`time ≥ 20 - 10 = 10` after the push. -/
theorem window_invariant_counterexample :
    (staleBuffer ++ ([] : List Point)).getLast? = some (pt 20)
    ∧ pt 0 ∈ pushSingleByTimeWindow 10 0 staleBuffer []
    ∧ ¬((pt 20).time - 10 ≤ (pt 0).time) :=
  ⟨by decide, by decide, by decide⟩

/-- C7: pushing an empty batch through `pushSingleByTimeWindow` returns
the buffer entirely unchanged, while `pushChannelPoints` with an empty
batch re-runs the merge-trim-cap pipeline on the existing content alone
(anchored at its own last point), so the result is a sublist of the
buffer — its length never grows and every retained point is unchanged;
the concrete case shows an old point being dropped this way. -/
theorem empty_push_behavior (timeWindowMs now : Int) (prev current : List Point) :
    pushSingleByTimeWindow timeWindowMs now prev [] = prev
    ∧ pushChannelPoints timeWindowMs now current []
        = (if MAX_POINTS_PER_CHANNEL <
              (current.filter fun p =>
                decide (lastTime now current - timeWindowMs ≤ p.time)).length
           then (current.filter fun p =>
                  decide (lastTime now current - timeWindowMs ≤ p.time)).drop
                  ((current.filter fun p =>
                    decide (lastTime now current - timeWindowMs ≤ p.time)).length
                    - MAX_POINTS_PER_CHANNEL)
           else current.filter fun p =>
                  decide (lastTime now current - timeWindowMs ≤ p.time))
    ∧ List.Sublist (pushChannelPoints timeWindowMs now current []) current
    ∧ (pushChannelPoints timeWindowMs now current []).length ≤ current.length
    ∧ pushChannelPoints 10 0 staleBuffer [] = [pt 20] := by
  have heq := pushChannelPoints_eq timeWindowMs now current []
  rw [List.append_nil] at heq
  have hsub : List.Sublist (pushChannelPoints timeWindowMs now current []) current := by
    rw [heq]
    exact ((capSuffix _).sublist).trans (List.filter_sublist _)
  exact ⟨rfl, heq, hsub, hsub.length_le, by decide⟩


/-- C8: every point emitted by the router has a finite value (raw samples
are read through `Number`, modelled by `JSNum`, and non-finite results are
coerced to 0 by `coerceFinite`), and both push operations only retain
points from the existing buffer or the pushed batch, so no NaN ever
enters a buffer. -/
theorem emitted_values_finite :
    (∀ (f : Frame) (k : BufKey) (pts : List Point), (k, pts) ∈ routeFrame f →
        ∀ p ∈ pts, p.value.isFinite = true)
    ∧ (∀ v : JSNum, v.isFinite = false → coerceFinite v = JSNum.num 0)
    ∧ (∀ (timeWindowMs now : Int) (current pts : List Point),
        (∀ p ∈ current, p.value.isFinite = true) →
        (∀ p ∈ pts, p.value.isFinite = true) →
        ∀ p ∈ pushChannelPoints timeWindowMs now current pts, p.value.isFinite = true)
    ∧ (∀ (timeWindowMs now : Int) (current pts : List Point),
        (∀ p ∈ current, p.value.isFinite = true) →
        (∀ p ∈ pts, p.value.isFinite = true) →
        ∀ p ∈ pushSingleByTimeWindow timeWindowMs now current pts,
          p.value.isFinite = true) := by
  have hpush : ∀ (timeWindowMs now : Int) (current pts : List Point),
      (∀ p ∈ current, p.value.isFinite = true) →
      (∀ p ∈ pts, p.value.isFinite = true) →
      ∀ p ∈ pushChannelPoints timeWindowMs now current pts, p.value.isFinite = true := by
    intro tw now cur pts hc hp p hmem
    rcases List.mem_append.mp (mem_pushChannel_mem_merged hmem) with h | h
    · exact hc p h
    · exact hp p h
  refine ⟨fun f k pts hmem => mem_routeFrame_finite hmem, ?_, hpush, ?_⟩
  · intro v hv
    unfold coerceFinite
    rw [hv]
    rfl
  · intro tw now cur pts hc hp p hmem
    cases pts with
    | nil =>
      rw [pushSingle_nil] at hmem
      exact hc p hmem
    | cons a l =>
      rw [pushSingle_eq_pushChannel _ _ _ _ (by simp)] at hmem
      exact hpush _ _ _ _ hc hp p hmem

/-- Witness for C8: the router turns an EOG frame whose only sample is
NaN into a point of value 0; the push operations keep finiteness. -/
theorem emitted_values_finite_witness :
    (Point.mk 1000 (JSNum.num 0)).value.isFinite = true
    ∧ coerceFinite JSNum.nan = JSNum.num 0
    ∧ (pt 2).value.isFinite = true
    ∧ (pt 3).value.isFinite = true := by
  have h := emitted_values_finite
  have hm : (BufKey.eogData, [Point.mk 1000 (JSNum.num 0)]) ∈ routeFrame nanFrame := by
    have hr : routeFrame nanFrame = [(BufKey.eogData, [Point.mk 1000 (JSNum.num 0)])] := by
      simp [routeFrame, nanFrame, chanSamples, buildTimestamps, buildPts, strideMap,
        strideMap.go, coerceFinite, JSNum.isFinite, fallbackTs, MAX_POINTS_PER_MESSAGE]
      norm_num [jsRound]
    rw [hr]
    exact List.mem_singleton.mpr rfl
  refine ⟨h.1 nanFrame _ _ hm _ (by decide), h.2.1 JSNum.nan rfl, ?_, ?_⟩
  · exact h.2.2.1 10 0 [pt 1] [pt 2] (by decide) (by decide) (pt 2) (by decide)
  · exact h.2.2.2 10 0 [pt 1] [pt 3] (by decide) (by decide) (pt 3) (by decide)

/-- C9: when an inbound message fails to decode (unparseable payload,
missing or non-array `window`, first element not an array, or empty first
channel) the LiveView pass emits no batches and leaves every channel
buffer exactly unchanged; `decodeFrame` and `processWsData` are total, so
no exception reaches the caller. -/
theorem decode_failure_no_effect (timeWindowMs now : Int) (store : BufKey → List Point) :
    (∀ input : WsInput, decodeFrame now input = none →
        processWsData timeWindowMs now store input = (store, []))
    ∧ decodeFrame now WsInput.parseError = none
    ∧ decodeFrame now WsInput.noText = none
    ∧ decodeFrame now WsInput.falsy = none
    ∧ (∀ p : RawPayload, p.window = none →
        decodeFrame now (WsInput.payload p) = none)
    ∧ (∀ p : RawPayload, p.window = some JSWindow.notArray →
        decodeFrame now (WsInput.payload p) = none)
    ∧ (∀ (p : RawPayload) (channels : List JSChannel),
        p.window = some (JSWindow.arr channels) →
        chanSamples (channels.headD JSChannel.notArray) = [] →
        decodeFrame now (WsInput.payload p) = none) := by
  refine ⟨?_, rfl, rfl, rfl, ?_, ?_, ?_⟩
  · intro input h
    unfold processWsData
    rw [h]
  · intro p hw
    simp only [decodeFrame]
    rw [hw]
  · intro p hw
    simp only [decodeFrame]
    rw [hw]
  · intro p channels hw hsam
    simp only [decodeFrame]
    rw [hw]
    cases channels with
    | nil => rfl
    | cons c cs =>
      have hc : chanSamples c = [] := hsam
      simp [hc]

/-- Witness for C9: a payload whose first channel is an empty array is
dropped and the buffer store is returned unchanged with no batches. -/
theorem decode_failure_no_effect_witness :
    decodeFrame 0 (WsInput.payload
      { source := none, fs := none, timestamp := none, window := none }) = none
    ∧ decodeFrame 0 (WsInput.payload
      { source := none, fs := none, timestamp := none,
        window := some JSWindow.notArray }) = none
    ∧ decodeFrame 0 (WsInput.payload emptyChannelPayload) = none
    ∧ processWsData 10 0 (fun _ => []) (WsInput.payload emptyChannelPayload)
        = ((fun _ => []), []) := by
  have h := decode_failure_no_effect 10 0 (fun _ => ([] : List Point))
  have h0 := decode_failure_no_effect 10 (0 : Int) (fun _ => ([] : List Point))
  have hempty := h0.2.2.2.2.2.2 emptyChannelPayload [JSChannel.arr []] rfl rfl
  exact ⟨h0.2.2.2.2.1 _ rfl, h0.2.2.2.2.2.1 _ rfl, hempty, h.1 _ hempty⟩


/-- C4: for a decoded frame with source "EMG" and exactly two channels,
the router emits exactly two batches: one into the `emgData` buffer (the
spec's "primary" key) built from channel 0, and one into the `emgCh1Data`
buffer (the spec's "secondary" key) built from channel 1.  With source
"EMG" and exactly one channel it emits a single batch into `emgData` (the
spec's "emg" key — the same buffer "primary" uses) built from channel 0. -/
theorem emg_routing_batches (f : Frame) :
    (f.source = "EMG" → f.channels.length = 2 →
      routeFrame f =
        [(BufKey.emgData,
          dualPts (refStride f) (refSamples f).length f.fs f.endTs (refTimestamps f)
            (chanSamples (f.channels.getD 0 JSChannel.notArray))),
         (BufKey.emgCh1Data,
          dualPts (refStride f) (refSamples f).length f.fs f.endTs (refTimestamps f)
            (chanSamples (f.channels.getD 1 JSChannel.notArray)))])
    ∧ (f.source = "EMG" → f.channels.length = 1 →
      routeFrame f =
        [(BufKey.emgData,
          buildPts (refStride f) (refSamples f).length f.fs f.endTs (refTimestamps f)
            (chanSamples (f.channels.headD JSChannel.notArray)))]) := by
  constructor
  · intro hs hl
    have h1 : ¬(f.source = "EEG" ∨ 8 ≤ f.channels.length) := by
      rintro (h | h)
      · rw [hs] at h
        exact absurd h (by decide)
      · rw [hl] at h
        omega
    have h2 : f.source = "EMG" ∧ f.channels.length = 2 := ⟨hs, hl⟩
    simp only [routeFrame]
    rw [if_neg h1, if_pos h2]
    rfl
  · intro hs hl
    have h1 : ¬(f.source = "EEG" ∨ 8 ≤ f.channels.length) := by
      rintro (h | h)
      · rw [hs] at h
        exact absurd h (by decide)
      · rw [hl] at h
        omega
    have h2 : ¬(f.source = "EMG" ∧ f.channels.length = 2) := by
      rintro ⟨-, h⟩
      rw [hl] at h
      omega
    have h3 : ¬(f.source = "EOG") := by
      rw [hs]
      decide
    simp only [routeFrame]
    rw [if_neg h1, if_neg h2, if_neg h3, if_pos hs]
    rfl

/-- Witness for C4 at concrete dual- and mono-channel EMG frames. -/
theorem emg_routing_batches_witness :
    (routeFrame emgDualFrame).map Prod.fst = [BufKey.emgData, BufKey.emgCh1Data]
    ∧ (routeFrame emgMonoFrame).map Prod.fst = [BufKey.emgData] := by
  constructor
  · rw [(emg_routing_batches emgDualFrame).1 rfl rfl]
    rfl
  · rw [(emg_routing_batches emgMonoFrame).2 rfl rfl]
    rfl

/-- C5: the multi-channel rule has top priority: whenever the source is
"EEG" (regardless of channel count) or there are at least 8 channels, the
router emits exactly one batch per non-empty channel index, keyed by that
index (`eegByChannel`), and no single- or dual-channel rule applies (every
emitted key is an `eegByChannel` key). -/
theorem multichannel_priority_routing (f : Frame)
    (h : f.source = "EEG" ∨ 8 ≤ f.channels.length) :
    routeFrame f
      = ((List.range f.channels.length).filterMap fun ch =>
          if (chanSamples (f.channels.getD ch JSChannel.notArray)).isEmpty then none
          else some (BufKey.eegByChannel ch,
            buildPts (refStride f) (refSamples f).length f.fs f.endTs (refTimestamps f)
              (chanSamples (f.channels.getD ch JSChannel.notArray))))
    ∧ (∀ kp ∈ routeFrame f, ∃ ch, kp.1 = BufKey.eegByChannel ch
        ∧ (chanSamples (f.channels.getD ch JSChannel.notArray)).isEmpty = false)
    ∧ (∀ ch, ch < f.channels.length →
        (chanSamples (f.channels.getD ch JSChannel.notArray)).isEmpty = false →
        (BufKey.eegByChannel ch,
          buildPts (refStride f) (refSamples f).length f.fs f.endTs (refTimestamps f)
            (chanSamples (f.channels.getD ch JSChannel.notArray))) ∈ routeFrame f) := by
  have heq : routeFrame f
      = ((List.range f.channels.length).filterMap fun ch =>
          if (chanSamples (f.channels.getD ch JSChannel.notArray)).isEmpty then none
          else some (BufKey.eegByChannel ch,
            buildPts (refStride f) (refSamples f).length f.fs f.endTs (refTimestamps f)
              (chanSamples (f.channels.getD ch JSChannel.notArray)))) := by
    simp only [routeFrame]
    rw [if_pos h]
    rfl
  refine ⟨heq, ?_, ?_⟩
  · intro kp hkp
    rw [heq] at hkp
    simp only [List.mem_filterMap, List.mem_range] at hkp
    obtain ⟨ch, hch, hif⟩ := hkp
    by_cases he : (chanSamples (f.channels.getD ch JSChannel.notArray)).isEmpty
    · rw [if_pos he] at hif
      exact absurd hif (by simp)
    · rw [if_neg he] at hif
      injection hif with hif2
      refine ⟨ch, ?_, by simpa using he⟩
      rw [← hif2]
  · intro ch hch hne
    rw [heq]
    simp only [List.mem_filterMap, List.mem_range]
    exact ⟨ch, hch, by rw [hne]; rfl⟩

/-- Witness for C5: an EEG frame with only two declared channels is still
routed per-channel. -/
theorem multichannel_priority_routing_witness :
    (routeFrame eegTwoChFrame).map Prod.fst
      = [BufKey.eegByChannel 0, BufKey.eegByChannel 1] := by
  rw [(multichannel_priority_routing eegTwoChFrame (Or.inl rfl)).1]
  rfl


/-- C3: for a reference channel of length `n ≥ 1` and
`stride = max(1, floor(n / 120))`, the timestamp list and the
reference-channel batch both have `ceil(n / stride)` entries; the `idx`-th
kept point is built from sample index `idx * stride` and carries timestamp
`endTs + round((idx * stride - (n - 1)) * (1000 / fs))`; and when
`stride = 1` the last kept sample lands exactly at `endTs`. -/
theorem stride_and_timestamps_formula (n : Nat) (fs : ℚ) (endTs : Int)
    (samples : List JSNum) (stride : Nat) (hn : 1 ≤ n) (hsam : samples.length = n)
    (hstride : stride = max 1 (n / MAX_POINTS_PER_MESSAGE)) :
    (buildTimestamps stride n fs endTs).length = ceilDiv n stride
    ∧ (buildPts stride n fs endTs (buildTimestamps stride n fs endTs) samples).length
        = ceilDiv n stride
    ∧ (∀ idx, idx < ceilDiv n stride →
        ((buildPts stride n fs endTs (buildTimestamps stride n fs endTs) samples).getD idx
            (pt 0)).time
          = endTs + jsRound ((((idx * stride : Nat) : ℚ) - ((n : ℚ) - 1)) * (1000 / fs))
        ∧ ((buildPts stride n fs endTs (buildTimestamps stride n fs endTs) samples).getD idx
            (pt 0)).value
          = coerceFinite (samples.getD (idx * stride) JSNum.nan))
    ∧ (stride = 1 →
        ((buildPts stride n fs endTs (buildTimestamps stride n fs endTs) samples).getD
            (n - 1) (pt 0)).time = endTs) := by
  have hs : 0 < stride := by
    rw [hstride]
    exact Nat.lt_of_lt_of_le Nat.zero_lt_one (Nat.le_max_left _ _)
  have hlen1 : (buildTimestamps stride n fs endTs).length = ceilDiv n stride := by
    unfold buildTimestamps
    exact length_strideMap _ _ _ hs
  have hmain : ∀ idx, idx < ceilDiv n stride →
      ((buildPts stride n fs endTs (buildTimestamps stride n fs endTs) samples).getD idx
          (pt 0)).time
        = endTs + jsRound ((((idx * stride : Nat) : ℚ) - ((n : ℚ) - 1)) * (1000 / fs))
      ∧ ((buildPts stride n fs endTs (buildTimestamps stride n fs endTs) samples).getD idx
          (pt 0)).value
        = coerceFinite (samples.getD (idx * stride) JSNum.nan) := by
    intro idx hidx
    unfold buildPts
    rw [hsam, getD_strideMap _ _ _ hs idx hidx]
    constructor
    · show (buildTimestamps stride n fs endTs).getD idx _ = _
      unfold buildTimestamps
      rw [getD_strideMap _ _ _ hs idx hidx]
    · rfl
  refine ⟨hlen1, ?_, hmain, ?_⟩
  · unfold buildPts
    rw [hsam]
    exact length_strideMap _ _ _ hs
  · intro hs1
    subst hs1
    have hidx : n - 1 < ceilDiv n 1 := by
      rw [ceilDiv_one]
      omega
    have h := (hmain (n - 1) hidx).1
    have hcast : (((n - 1) * 1 : Nat) : ℚ) = (n : ℚ) - 1 := by
      rw [Nat.mul_one, Nat.cast_sub hn]
      norm_num
    rw [h, hcast, sub_self, zero_mul]
    have hjs : jsRound 0 = 0 := by
      unfold jsRound
      norm_num
    rw [hjs, add_zero]

/-- Witness for C3 at a 3-sample frame with fs = 500 Hz: stride 1,
3 timestamps, last kept sample exactly at endTs = 1000. -/
theorem stride_and_timestamps_formula_witness :
    (buildTimestamps 1 3 500 1000).length = 3
    ∧ ((buildPts 1 3 500 1000 (buildTimestamps 1 3 500 1000) samples3).getD 2
        (pt 0)).time = 1000 := by
  have h := stride_and_timestamps_formula 3 500 1000 samples3 1 (by decide) rfl rfl
  exact ⟨h.1, h.2.2.2 rfl⟩


/-- C10 (amended): the stride is computed from the reference channel only
but applied to every channel's own length, so a channel with `m` samples
yields `ceil(m / stride)` points — exceeding the 120-point cap whenever
`m` is sufficiently longer than the reference (concrete instance: 120 vs
121 samples gives a 121-point batch).  Kept indices past the precomputed
timestamp list receive the fallback timestamp
`endTs - round((n - 1 - i) * (1000 / fs))`, which for `i > n - 1` lies at
or after `endTs` when `fs > 0`, and strictly after `endTs` when
`0 < fs < 2000` (at `fs ≥ 2000` it can equal `endTs` exactly — see the
counterexample). -/
theorem decimation_cap_only_reference :
    (∀ (stride n : Nat) (fs : ℚ) (endTs : Int) (ts : List Int) (chSamples : List JSNum),
        0 < stride →
        (buildPts stride n fs endTs ts chSamples).length = ceilDiv chSamples.length stride)
    ∧ (((routeFrame overflowFrame).getD 1 (BufKey.eogData, [])).2.length = 121
        ∧ MAX_POINTS_PER_MESSAGE < 121)
    ∧ (∀ (stride n : Nat) (fs : ℚ) (endTs : Int) (ts : List Int) (chSamples : List JSNum)
        (idx : Nat), 0 < stride → ts.length ≤ idx →
        idx < ceilDiv chSamples.length stride →
        ((buildPts stride n fs endTs ts chSamples).getD idx (pt 0)).time
          = fallbackTs n fs endTs (idx * stride))
    ∧ (∀ (n : Nat) (fs : ℚ) (endTs : Int) (i : Nat), n ≤ i → 0 < fs →
        endTs ≤ fallbackTs n fs endTs i
        ∧ (fs < 2000 → endTs < fallbackTs n fs endTs i)) := by
  have hlen : ∀ (stride n : Nat) (fs : ℚ) (endTs : Int) (ts : List Int)
      (chSamples : List JSNum), 0 < stride →
      (buildPts stride n fs endTs ts chSamples).length
        = ceilDiv chSamples.length stride := by
    intro stride n fs endTs ts chSamples h
    unfold buildPts
    exact length_strideMap _ _ _ h
  refine ⟨hlen, ⟨?_, by decide⟩, ?_, ?_⟩
  · have h120 : (List.replicate 120 (JSNum.num 0)).isEmpty = false := by simp
    have h121 : (List.replicate 121 (JSNum.num 0)).isEmpty = false := by simp
    have hr : routeFrame overflowFrame
        = [(BufKey.eegByChannel 0,
            buildPts (refStride overflowFrame) (refSamples overflowFrame).length
              overflowFrame.fs overflowFrame.endTs (refTimestamps overflowFrame)
              (List.replicate 120 (JSNum.num 0))),
           (BufKey.eegByChannel 1,
            buildPts (refStride overflowFrame) (refSamples overflowFrame).length
              overflowFrame.fs overflowFrame.endTs (refTimestamps overflowFrame)
              (List.replicate 121 (JSNum.num 0)))] := by
      simp only [routeFrame]
      rw [if_pos (show overflowFrame.source = "EEG" ∨ 8 ≤ overflowFrame.channels.length
        from Or.inl rfl)]
      have hlen2 : overflowFrame.channels.length = 2 := rfl
      rw [hlen2, List.range_succ, List.range_succ, List.range_zero]
      simp only [List.nil_append, List.singleton_append, List.filterMap_cons,
        List.filterMap_nil]
      have hg0 : chanSamples (overflowFrame.channels.getD 0 JSChannel.notArray)
          = List.replicate 120 (JSNum.num 0) := rfl
      have hg1 : chanSamples (overflowFrame.channels.getD 1 JSChannel.notArray)
          = List.replicate 121 (JSNum.num 0) := rfl
      rw [hg0, hg1, h120, h121]
      rfl
    have hstr : refStride overflowFrame = 1 := by
      unfold refStride refSamples
      have hh : chanSamples (overflowFrame.channels.headD JSChannel.notArray)
          = List.replicate 120 (JSNum.num 0) := rfl
      rw [hh, List.length_replicate]
      rfl
    have hproj : ((routeFrame overflowFrame).getD 1 (BufKey.eogData, [])).2
        = buildPts (refStride overflowFrame) (refSamples overflowFrame).length
            overflowFrame.fs overflowFrame.endTs (refTimestamps overflowFrame)
            (List.replicate 121 (JSNum.num 0)) := by
      rw [hr]
      rfl
    rw [hproj, hlen _ _ _ _ _ _ (by rw [hstr]; exact Nat.one_pos), List.length_replicate,
      hstr, ceilDiv_one]
  · intro stride n fs endTs ts chSamples idx h0 hts hidx
    unfold buildPts
    rw [getD_strideMap _ _ _ h0 idx hidx]
    show ts.getD idx (fallbackTs n fs endTs (idx * stride)) = _
    rw [List.getD_eq_getElem?_getD, List.getElem?_eq_none hts]
    rfl
  · intro n fs endTs i hni hfs
    have hx : ((n : ℚ) - 1) - (i : ℚ) ≤ -1 := by
      have hcast : (n : ℚ) ≤ (i : ℚ) := by exact_mod_cast hni
      linarith
    have hpos : 0 < (1000 : ℚ) / fs := div_pos (by norm_num) hfs
    have hxle : (((n : ℚ) - 1) - (i : ℚ)) * (1000 / fs) ≤ -1 * (1000 / fs) :=
      mul_le_mul_of_nonneg_right hx (le_of_lt hpos)
    constructor
    · have hflt : jsRound ((((n : ℚ) - 1) - (i : ℚ)) * (1000 / fs)) ≤ 0 := by
        unfold jsRound
        have h1 : (((n : ℚ) - 1) - (i : ℚ)) * (1000 / fs) + 1 / 2 < 1 := by linarith
        have h2 : Int.floor ((((n : ℚ) - 1) - (i : ℚ)) * (1000 / fs) + 1 / 2) < 1 :=
          Int.floor_lt.mpr (by push_cast; linarith)
        omega
      unfold fallbackTs
      omega
    · intro h2000
      have hhalf : (1 : ℚ) / 2 < 1000 / fs := by
        rw [div_lt_div_iff₀ (by norm_num) hfs]
        linarith
      have hneg : (((n : ℚ) - 1) - (i : ℚ)) * (1000 / fs) + 1 / 2 < 0 := by linarith
      have hflt : jsRound ((((n : ℚ) - 1) - (i : ℚ)) * (1000 / fs)) < 0 := by
        unfold jsRound
        exact Int.floor_lt.mpr (by push_cast; linarith)
      unfold fallbackTs
      omega

/-- Witness for C10 (amended) at concrete inputs: a 3-sample channel with
stride 2 yields 2 points; with an empty timestamp list the first kept
point takes the fallback timestamp; and at fs = 500 < 2000 a fallback
timestamp for `i > n - 1` lies strictly after `endTs`. -/
theorem decimation_cap_only_reference_witness :
    (buildPts 2 4 500 1000 [] [JSNum.num 0, JSNum.num 0, JSNum.num 0]).length = 2
    ∧ ((buildPts 2 4 500 1000 [] [JSNum.num 0, JSNum.num 0, JSNum.num 0]).getD 0
        (pt 0)).time = fallbackTs 4 500 1000 0
    ∧ (1000 : Int) < fallbackTs 1 500 1000 1 := by
  have h := decimation_cap_only_reference
  refine ⟨h.1 2 4 500 1000 [] _ (by decide), ?_, ?_⟩
  · exact h.2.2.1 2 4 500 1000 [] [JSNum.num 0, JSNum.num 0, JSNum.num 0] 0
      (by decide) (by decide) (by decide)
  · exact (h.2.2.2 1 500 1000 1 (by decide) (by norm_num)).2 (by norm_num)

/-- C10 counterexample: in `fallbackEdgeFrame` (fs = 2000, n = 1, second
channel of length 2) the kept index `i = 1 > n - 1 = 0` takes the fallback
timestamp `endTs - round(-0.5) = endTs`: it does not lie after `endTs`. -/
theorem fallback_timestamp_counterexample :
    (((routeFrame fallbackEdgeFrame).getD 1 (BufKey.eogData, [])).2.getD 1 (pt 0)).time
        = fallbackEdgeFrame.endTs
    ∧ ¬(fallbackEdgeFrame.endTs <
        (((routeFrame fallbackEdgeFrame).getD 1 (BufKey.eogData, [])).2.getD 1
          (pt 0)).time) := by
  have hr : routeFrame fallbackEdgeFrame
      = [(BufKey.eegByChannel 0, [{ time := 1000000, value := JSNum.num 0 }]),
         (BufKey.eegByChannel 1, [{ time := 1000000, value := JSNum.num 0 },
                                  { time := 1000000, value := JSNum.num 0 }])] := by
    simp [routeFrame, fallbackEdgeFrame, chanSamples, buildTimestamps, buildPts, strideMap,
      strideMap.go, List.range_succ, coerceFinite, JSNum.isFinite, fallbackTs,
      MAX_POINTS_PER_MESSAGE]
    norm_num [jsRound]
  rw [hr]
  exact ⟨rfl, by decide⟩


/-- C6 counterexample: after 5 consecutive transport closes from attempt
counter 0 (reconnect timer firing between them, no successful open), the
hook is still `disconnected` with a fifth reconnect attempt scheduled and
the counter at 5 — not in the `error` state with retries stopped, as the
claim asserts. -/
theorem reconnect_five_closes_counterexample :
    (wsRun true initWSState fiveCloseTrace).status = WSStatus.disconnected
    ∧ (wsRun true initWSState fiveCloseTrace).status ≠ WSStatus.error
    ∧ (wsRun true initWSState fiveCloseTrace).reconnectTimerPending = true
    ∧ (wsRun true initWSState fiveCloseTrace).reconnectAttempts = 5 := by
  refine ⟨by decide, by decide, by decide, by decide⟩

/-- C6 (amended): each of the first 5 closes schedules a reconnect
(incrementing the counter, which a successful open would reset to 0); on
the 6th consecutive close — the close of the 5th and last scheduled
reconnect attempt — the counter is exhausted, the status becomes `error`,
no reconnect is pending, and every further close or timer event leaves
the machine in `error` without scheduling anything. -/
theorem reconnect_error_after_six_closes :
    (wsRun true initWSState sixCloseTrace).status = WSStatus.error
    ∧ (wsRun true initWSState sixCloseTrace).reconnectTimerPending = false
    ∧ (wsRun true initWSState sixCloseTrace).reconnectAttempts = 5
    ∧ wsStep true (wsRun true initWSState sixCloseTrace) WSEvent.timerFired
        = wsRun true initWSState sixCloseTrace
    ∧ (wsStep true (wsRun true initWSState sixCloseTrace) WSEvent.closed).status
        = WSStatus.error
    ∧ (wsStep true (wsRun true initWSState sixCloseTrace) WSEvent.closed).reconnectTimerPending
        = false
    ∧ (∀ s : WSState, MAX_RECONNECT_ATTEMPTS ≤ s.reconnectAttempts →
        (handleClose true s).status = WSStatus.error
        ∧ (handleClose true s).reconnectTimerPending = s.reconnectTimerPending
        ∧ (handleClose true s).reconnectAttempts = s.reconnectAttempts)
    ∧ (∀ s : WSState, (handleOpen s).reconnectAttempts = 0) := by
  refine ⟨by decide, by decide, by decide, by decide, by decide, by decide, ?_, fun s => rfl⟩
  intro s h
  have h5 : ¬(s.reconnectAttempts < MAX_RECONNECT_ATTEMPTS) := by omega
  unfold handleClose
  rw [if_neg (fun hc => h5 hc.2), if_pos h]
  exact ⟨rfl, rfl, rfl⟩

/-- Witness for C6 (amended): a state with an exhausted counter goes to
`error` on close, without touching the timer flag or the counter. -/
theorem reconnect_error_after_six_closes_witness :
    (handleClose true
        { status := WSStatus.disconnected, reconnectAttempts := 5,
          reconnectTimerPending := false, pingLoopActive := false }).status
      = WSStatus.error := by
  have h := reconnect_error_after_six_closes
  exact (h.2.2.2.2.2.2.1
    { status := WSStatus.disconnected, reconnectAttempts := 5,
      reconnectTimerPending := false, pingLoopActive := false } (by decide)).1

end BrainDash
